import Mathlib

/-!
Shallow embedding of the analytical pipeline of the cryptocurrency dashboard
(src/crypto_streamlit/streamlit_app.py).

Modelling choices:
- a calendar date is a day number `Nat`;
- monetary values and daily returns are exact rationals `ℚ`; a null `Return`
  cell is `Option.none`;
- the loaded CSV is a `List Row` (one `Row` per line);
- pandas operations are translated operation by operation: `df[df['Coin']==c]`
  is `List.filter`, `sort_values` is `List.insertionSort` with the matching
  comparison (NaN sort keys placed last, as pandas does), `groupby('Coin')
  ['Return'].std()` is the sample standard deviation over the non-null
  returns of each distinct coin (`NaN` result encoded as `none`),
  `pivot_table` builds the date-indexed return matrix, and `.corr()` is
  pairwise Pearson correlation over the non-null overlap of two columns.
- A Pearson coefficient `cov / (√varx · √vary)` is represented exactly by the
  pair `(cov, varx * vary) : ℚ × ℚ`; its real value is
  `corrVal` below, and `corrLeB` decides the real-value order on such pairs.
-/

structure Row where
  date : Nat
  coin : String
  close : ℚ
  marketcap : ℚ
  ret : Option ℚ
deriving DecidableEq

/-- Comparison used by `sort_values('Date')`: ascending date. -/
def dateLe (a b : Row) : Prop := a.date ≤ b.date

instance : DecidableRel dateLe := fun a b => inferInstanceAs (Decidable (a.date ≤ b.date))

instance : IsTotal Row dateLe := ⟨fun a b => Nat.le_total a.date b.date⟩

instance : IsTrans Row dateLe := ⟨fun _ _ _ h1 h2 => Nat.le_trans h1 h2⟩

/-- Line 21: `coin_df = df[df['Coin'] == selected_coin].sort_values('Date').copy()`. -/
def coinDf (df : List Row) (c : String) : List Row :=
  List.insertionSort dateLe (df.filter (fun r => decide (r.coin = c)))

/-- C1: selecting a coin yields exactly the dataset rows whose `Coin` equals
`c` (same multiset), ordered by ascending `Date`. -/
theorem coinDf_filters_and_sorts (df : List Row) (c : String) :
    (coinDf df c).Perm (df.filter (fun r => decide (r.coin = c))) ∧
    (∀ r : Row, r ∈ coinDf df c ↔ r ∈ df ∧ r.coin = c) ∧
    (coinDf df c).Sorted dateLe := by
  refine ⟨List.perm_insertionSort dateLe _, fun r => ?_, List.sorted_insertionSort dateLe _⟩
  rw [coinDf, List.mem_insertionSort, List.mem_filter]
  simp [decide_eq_true_iff]

/-! ## Volatility ranking (lines 79-83) -/

/-- Arithmetic mean of a list of rationals (`0` on the empty list). -/
def meanQ (l : List ℚ) : ℚ := l.sum / l.length

/-- pandas `Series.std()` (sample standard deviation, `ddof=1`, NaN for
fewer than two values), represented by its square, the sample variance:
the std itself is `Real.sqrt` of this value.  `none` encodes NaN. -/
def sampleVar (l : List ℚ) : Option ℚ :=
  if l.length < 2 then none
  else some ((l.map (fun x => (x - meanQ l) ^ 2)).sum / ((l.length : ℚ) - 1))

/-- The non-null `Return` values of one coin (`groupby('Coin')['Return']`
with pandas default `skipna`). -/
def nonNullReturns (df : List Row) (c : String) : List ℚ :=
  (df.filter (fun r => decide (r.coin = c))).filterMap (fun r => r.ret)

/-- The distinct coins of the dataset, first occurrence first
(`df['Coin'].unique()`, also the group keys of `groupby('Coin')`). -/
def coinsOf (df : List Row) : List String := (df.map (fun r => r.coin)).dedup

/-- One row of `volatility_df`: a coin and its (possibly NaN) volatility,
the latter represented by the sample variance (see `sampleVar`). -/
structure VolEntry where
  coin : String
  vol : Option ℚ
deriving DecidableEq

/-- Line 79: `volatility_df = df.groupby('Coin')['Return'].std().reset_index()`. -/
def volatilityDf (df : List Row) : List VolEntry :=
  (coinsOf df).map (fun c => ⟨c, sampleVar (nonNullReturns df c)⟩)

/-- Ascending order on optional variances with `none` (NaN) last, as pandas
`sort_values(...)` places NaN keys last. -/
def optLeNoneLast (a b : Option ℚ) : Prop :=
  match a, b with
  | some x, some y => x ≤ y
  | some _, none => True
  | none, some _ => False
  | none, none => True

/-- Descending order on optional variances with `none` (NaN) still last, as
pandas `sort_values(..., ascending=False)` places NaN keys last. -/
def optGeNoneLast (a b : Option ℚ) : Prop :=
  match a, b with
  | some x, some y => y ≤ x
  | some _, none => True
  | none, some _ => False
  | none, none => True

instance : ∀ a b : Option ℚ, Decidable (optLeNoneLast a b) := fun a b =>
  match a, b with
  | some x, some y => inferInstanceAs (Decidable (x ≤ y))
  | some _, none => Decidable.isTrue trivial
  | none, some _ => Decidable.isFalse id
  | none, none => Decidable.isTrue trivial

instance : ∀ a b : Option ℚ, Decidable (optGeNoneLast a b) := fun a b =>
  match a, b with
  | some x, some y => inferInstanceAs (Decidable (y ≤ x))
  | some _, none => Decidable.isTrue trivial
  | none, some _ => Decidable.isFalse id
  | none, none => Decidable.isTrue trivial

/-- Sort key of `volatility_df.sort_values('Volatility')`. -/
def volAsc (a b : VolEntry) : Prop := optLeNoneLast a.vol b.vol

/-- Sort key of `volatility_df.sort_values('Volatility', ascending=False)`. -/
def volDesc (a b : VolEntry) : Prop := optGeNoneLast a.vol b.vol

instance : DecidableRel volAsc := fun a b =>
  inferInstanceAs (Decidable (optLeNoneLast a.vol b.vol))

instance : DecidableRel volDesc := fun a b =>
  inferInstanceAs (Decidable (optGeNoneLast a.vol b.vol))

instance : IsTotal VolEntry volAsc :=
  ⟨fun a b => by
    unfold volAsc optLeNoneLast
    rcases a.vol with _ | x <;> rcases b.vol with _ | y <;> simp [le_total]⟩

instance : IsTrans VolEntry volAsc :=
  ⟨fun a b c => by
    unfold volAsc optLeNoneLast
    rcases a.vol with _ | x <;> rcases b.vol with _ | y <;> rcases c.vol with _ | z <;>
      simp <;> exact le_trans⟩

instance : IsTotal VolEntry volDesc :=
  ⟨fun a b => by
    unfold volDesc optGeNoneLast
    rcases a.vol with _ | x <;> rcases b.vol with _ | y <;> simp [le_total]⟩

instance : IsTrans VolEntry volDesc :=
  ⟨fun a b c => by
    unfold volDesc optGeNoneLast
    rcases a.vol with _ | x <;> rcases b.vol with _ | y <;> rcases c.vol with _ | z <;>
      simp <;> exact fun h1 h2 => le_trans h2 h1⟩

/-- Line 81: `volatility_df.sort_values('Volatility').head(n)` (code uses `n = 5`). -/
def mostStable (t : List VolEntry) (n : Nat) : List VolEntry :=
  (List.insertionSort volAsc t).take n

/-- Line 83: `volatility_df.sort_values('Volatility', ascending=False).head(n)`. -/
def mostVolatile (t : List VolEntry) (n : Nat) : List VolEntry :=
  (List.insertionSort volDesc t).take n

/-- Ascending order on actual standard deviations (`Real.sqrt` of the stored
variances), undefined (NaN) volatility last. -/
def stdAsc (a b : VolEntry) : Prop :=
  match a.vol, b.vol with
  | some x, some y => Real.sqrt (x : ℝ) ≤ Real.sqrt (y : ℝ)
  | some _, none => True
  | none, some _ => False
  | none, none => True

/-- Descending order on actual standard deviations, NaN volatility last. -/
def stdDesc (a b : VolEntry) : Prop :=
  match a.vol, b.vol with
  | some x, some y => Real.sqrt (y : ℝ) ≤ Real.sqrt (x : ℝ)
  | some _, none => True
  | none, some _ => False
  | none, none => True

theorem volAsc_imp_stdAsc {a b : VolEntry} (h : volAsc a b) : stdAsc a b := by
  obtain ⟨ca, va⟩ := a
  obtain ⟨cb, vb⟩ := b
  unfold volAsc optLeNoneLast at h
  unfold stdAsc
  rcases va with _ | x <;> rcases vb with _ | y <;> simp_all
  exact Real.sqrt_le_sqrt (by exact_mod_cast h)

theorem volDesc_imp_stdDesc {a b : VolEntry} (h : volDesc a b) : stdDesc a b := by
  obtain ⟨ca, va⟩ := a
  obtain ⟨cb, vb⟩ := b
  unfold volDesc optGeNoneLast at h
  unfold stdDesc
  rcases va with _ | x <;> rcases vb with _ | y <;> simp_all
  exact Real.sqrt_le_sqrt (by exact_mod_cast h)

theorem pairwise_take_drop {α : Type} {R : α → α → Prop} {l : List α}
    (h : l.Pairwise R) (n : Nat) :
    ∀ x ∈ l.take n, ∀ y ∈ l.drop n, R x y := by
  have h2 : (l.take n ++ l.drop n).Pairwise R := by
    rw [List.take_append_drop]; exact h
  exact (List.pairwise_append.mp h2).2.2

theorem take_sort_spec {α : Type} (R : α → α → Prop) [DecidableRel R] [IsTotal α R]
    [IsTrans α R] (S : α → α → Prop) (hRS : ∀ a b, R a b → S a b)
    (t : List α) (n : Nat) :
    ((List.insertionSort R t).take n).Pairwise S ∧
    ((List.insertionSort R t).take n).length = min n t.length ∧
    ∃ rest, (((List.insertionSort R t).take n) ++ rest).Perm t ∧
      ∀ x ∈ (List.insertionSort R t).take n, ∀ y ∈ rest, S x y := by
  have hs : (List.insertionSort R t).Pairwise R := List.sorted_insertionSort R t
  refine ⟨?_, ?_, (List.insertionSort R t).drop n, ?_, ?_⟩
  · exact (hs.sublist (List.take_sublist n _)).imp (fun h => hRS _ _ h)
  · simp [List.length_take, List.length_insertionSort]
  · rw [List.take_append_drop]; exact List.perm_insertionSort R t
  · intro x hx y hy
    exact hRS _ _ (pairwise_take_drop hs n x hx y hy)

/-- C5: `volatility_df` assigns each distinct coin the sample standard
deviation of its non-null `Return` values (stored as the sample variance,
whose square root is the standard deviation); `mostStable t n` is the `n`
coins of smallest standard deviation in ascending order (undefined
volatility last), `mostVolatile t n` the `n` of largest standard deviation
in descending order: each view is pairwise sorted and every listed entry
precedes, in the corresponding order, every entry it leaves out. -/
theorem volatility_table_and_views (df : List Row) (n : Nat) :
    (∀ e ∈ volatilityDf df, e.vol = sampleVar (nonNullReturns df e.coin)) ∧
    (volatilityDf df).map VolEntry.coin = coinsOf df ∧
    (mostStable (volatilityDf df) n).Pairwise stdAsc ∧
    (mostStable (volatilityDf df) n).length = min n (volatilityDf df).length ∧
    (∃ rest, ((mostStable (volatilityDf df) n) ++ rest).Perm (volatilityDf df) ∧
      ∀ x ∈ mostStable (volatilityDf df) n, ∀ y ∈ rest, stdAsc x y) ∧
    (mostVolatile (volatilityDf df) n).Pairwise stdDesc ∧
    (mostVolatile (volatilityDf df) n).length = min n (volatilityDf df).length ∧
    (∃ rest, ((mostVolatile (volatilityDf df) n) ++ rest).Perm (volatilityDf df) ∧
      ∀ x ∈ mostVolatile (volatilityDf df) n, ∀ y ∈ rest, stdDesc x y) := by
  obtain ⟨h1, h2, h3⟩ :=
    take_sort_spec volAsc stdAsc (fun a b => volAsc_imp_stdAsc) (volatilityDf df) n
  obtain ⟨h4, h5, h6⟩ :=
    take_sort_spec volDesc stdDesc (fun a b => volDesc_imp_stdDesc) (volatilityDf df) n
  refine ⟨?_, ?_, h1, ?_, h3, h4, ?_, h6⟩
  · intro e he
    obtain ⟨c, _, rfl⟩ := List.mem_map.mp he
    rfl
  · simp [volatilityDf, List.map_map, Function.comp_def]
  · simp [mostStable]
  · simp [mostVolatile]

/-- C6: a coin with exactly one dataset row still appears in the volatility
table, with null (NaN) volatility; the computation is total (never raises). -/
theorem volatility_single_observation (df : List Row) (c : String)
    (h : (df.filter (fun r => decide (r.coin = c))).length = 1) :
    c ∈ coinsOf df ∧ ∀ e ∈ volatilityDf df, e.coin = c → e.vol = none := by
  constructor
  · have hne : df.filter (fun r => decide (r.coin = c)) ≠ [] := by
      intro he; rw [he] at h; simp at h
    obtain ⟨r, hr⟩ := List.exists_mem_of_ne_nil _ hne
    have hm := List.mem_filter.mp hr
    unfold coinsOf
    rw [List.mem_dedup]
    exact List.mem_map.mpr ⟨r, hm.1, by simpa using hm.2⟩
  · intro e he hc
    obtain ⟨c', _, rfl⟩ := List.mem_map.mp he
    have hcc : c' = c := hc
    subst hcc
    have hle : (nonNullReturns df c').length ≤ 1 := by
      calc (nonNullReturns df c').length
          ≤ (df.filter (fun r => decide (r.coin = c'))).length :=
            List.length_filterMap_le _ _
        _ = 1 := h
    unfold sampleVar
    rw [if_pos (by omega)]

/-! ## Correlation engine (lines 105-132) -/

/-- Distinct dates of the dataset, ascending (the index of
`df.pivot_table(index='Date', columns='Coin', values='Return')`). -/
def datesOf (df : List Row) : List Nat :=
  List.insertionSort (fun a b : Nat => a ≤ b) ((df.map (fun r => r.date)).dedup)

/-- The pivot table's columns: coins having at least one non-null `Return`
(`pivot_table` with its default `dropna=True` omits all-NaN columns).
pandas additionally sorts the column labels; no result below depends on
the label order, so first-occurrence order is kept. -/
def pivotCols (df : List Row) : List String :=
  ((df.filter (fun r => r.ret.isSome)).map (fun r => r.coin)).dedup

/-- One pivot cell: the mean (default `aggfunc`) of the non-null `Return`
values at `(d, c)`, NaN (`none`) when there are none. -/
def cell (df : List Row) (d : Nat) (c : String) : Option ℚ :=
  let vs := (df.filter (fun r => decide (r.date = d ∧ r.coin = c))).filterMap (fun r => r.ret)
  if vs.isEmpty then none else some (meanQ vs)

/-- Lines 107-110: with the toggle on, `pivot_df.dropna()` keeps only dates
whose row is complete; otherwise every date is kept. -/
def usedDates (df : List Row) (dropNA : Bool) : List Nat :=
  if dropNA then
    (datesOf df).filter (fun d => (pivotCols df).all (fun c => (cell df d c).isSome))
  else datesOf df

/-- One column of `pivot_df_clean`, as the date-aligned list of cells. -/
def colVec (df : List Row) (dropNA : Bool) (c : String) : List (Option ℚ) :=
  (usedDates df dropNA).map (fun d => cell df d c)

/-- The rows where both columns are non-null: `DataFrame.corr` computes each
pairwise Pearson coefficient over this overlap. -/
def overlap (xs ys : List (Option ℚ)) : List (ℚ × ℚ) :=
  (xs.zip ys).filterMap (fun p =>
    match p with
    | (some x, some y) => some (x, y)
    | _ => none)

/-- Deviation of the `i`-th first component from the first-component mean. -/
def fDev (ps : List (ℚ × ℚ)) (i : Nat) : ℚ :=
  (ps.getD i (0, 0)).1 - meanQ (ps.map Prod.fst)

/-- Deviation of the `i`-th second component from the second-component mean. -/
def gDev (ps : List (ℚ × ℚ)) (i : Nat) : ℚ :=
  (ps.getD i (0, 0)).2 - meanQ (ps.map Prod.snd)

/-- Centered cross sum `Σ (xᵢ - x̄)(yᵢ - ȳ)` (covariance, unnormalized). -/
def covSum (ps : List (ℚ × ℚ)) : ℚ :=
  (Finset.range ps.length).sum (fun i => fDev ps i * gDev ps i)

/-- Centered square sum of the first components (variance, unnormalized). -/
def varSumFst (ps : List (ℚ × ℚ)) : ℚ :=
  (Finset.range ps.length).sum (fun i => fDev ps i ^ 2)

/-- Centered square sum of the second components (variance, unnormalized). -/
def varSumSnd (ps : List (ℚ × ℚ)) : ℚ :=
  (Finset.range ps.length).sum (fun i => gDev ps i ^ 2)

/-- Pearson correlation of two aligned columns, exactly represented: the
real coefficient `cov / (√varx · √vary)` is stored as the pair
`(cov, varx * vary)` (see `corrVal`).  `none` encodes pandas' NaN result
(empty overlap or a zero variance). -/
def corrPair (xs ys : List (Option ℚ)) : Option (ℚ × ℚ) :=
  if varSumFst (overlap xs ys) * varSumSnd (overlap xs ys) = 0 then none
  else some (covSum (overlap xs ys), varSumFst (overlap xs ys) * varSumSnd (overlap xs ys))

/-- The real value of a represented Pearson coefficient. -/
noncomputable def corrVal (p : ℚ × ℚ) : ℝ :=
  (p.1 : ℝ) / Real.sqrt (p.2 : ℝ)

/-- NaN-free normal form of a represented coefficient: a pair with
nonpositive second component denotes the real value `0` (division by
`Real.sqrt` of a nonpositive number), the same value as `(0, 1)`.  Such
pairs never occur in produced results (`corrPair` filters them out); the
normalization only makes `corrLeB` a total preorder everywhere. -/
def corrNorm (p : ℚ × ℚ) : ℚ × ℚ := if p.2 ≤ 0 then ((0 : ℚ), (1 : ℚ)) else p

/-- Decides `corrVal p ≤ corrVal q` by sign analysis and cross-multiplied
squares (no square roots needed); `corrLeB_iff` proves it correct. -/
def corrLeB (p q : ℚ × ℚ) : Bool :=
  if 0 ≤ (corrNorm p).1 then
    decide (0 ≤ (corrNorm q).1) &&
      decide ((corrNorm p).1 ^ 2 * (corrNorm q).2 ≤ (corrNorm q).1 ^ 2 * (corrNorm p).2)
  else
    decide (0 ≤ (corrNorm q).1) ||
      decide ((corrNorm q).1 ^ 2 * (corrNorm p).2 ≤ (corrNorm p).1 ^ 2 * (corrNorm q).2)

theorem sqrt_cross_le {x y : ℝ} (u v : ℚ) (hx : 0 ≤ x) (hy : 0 ≤ y)
    (hu : 0 < u) (hv : 0 < v) :
    x * Real.sqrt (u : ℝ) ≤ y * Real.sqrt (v : ℝ) ↔
    x ^ 2 * (u : ℝ) ≤ y ^ 2 * (v : ℝ) := by
  have su : (0 : ℝ) ≤ Real.sqrt (u : ℝ) := Real.sqrt_nonneg _
  have sv : (0 : ℝ) ≤ Real.sqrt (v : ℝ) := Real.sqrt_nonneg _
  have hu2 : Real.sqrt (u : ℝ) * Real.sqrt (u : ℝ) = (u : ℝ) :=
    Real.mul_self_sqrt (by exact_mod_cast hu.le)
  have hv2 : Real.sqrt (v : ℝ) * Real.sqrt (v : ℝ) = (v : ℝ) :=
    Real.mul_self_sqrt (by exact_mod_cast hv.le)
  rw [mul_self_le_mul_self_iff (mul_nonneg hx su) (mul_nonneg hy sv)]
  have e1 : x * Real.sqrt (u : ℝ) * (x * Real.sqrt (u : ℝ)) = x ^ 2 * (u : ℝ) := by
    calc x * Real.sqrt (u : ℝ) * (x * Real.sqrt (u : ℝ))
        = x ^ 2 * (Real.sqrt (u : ℝ) * Real.sqrt (u : ℝ)) := by ring
      _ = x ^ 2 * (u : ℝ) := by rw [hu2]
  have e2 : y * Real.sqrt (v : ℝ) * (y * Real.sqrt (v : ℝ)) = y ^ 2 * (v : ℝ) := by
    calc y * Real.sqrt (v : ℝ) * (y * Real.sqrt (v : ℝ))
        = y ^ 2 * (Real.sqrt (v : ℝ) * Real.sqrt (v : ℝ)) := by ring
      _ = y ^ 2 * (v : ℝ) := by rw [hv2]
  rw [e1, e2]

theorem corrLe_core {c1 v1 c2 v2 : ℚ} (h1 : 0 < v1) (h2 : 0 < v2) :
    ((if 0 ≤ c1 then decide (0 ≤ c2) && decide (c1 ^ 2 * v2 ≤ c2 ^ 2 * v1)
      else decide (0 ≤ c2) || decide (c2 ^ 2 * v1 ≤ c1 ^ 2 * v2)) = true) ↔
    (c1 : ℝ) / Real.sqrt (v1 : ℝ) ≤ (c2 : ℝ) / Real.sqrt (v2 : ℝ) := by
  have s1 : (0 : ℝ) < Real.sqrt (v1 : ℝ) := Real.sqrt_pos.mpr (by exact_mod_cast h1)
  have s2 : (0 : ℝ) < Real.sqrt (v2 : ℝ) := Real.sqrt_pos.mpr (by exact_mod_cast h2)
  rw [div_le_div_iff s1 s2]
  by_cases hc1 : 0 ≤ c1 <;> by_cases hc2 : 0 ≤ c2
  · have hc1R : (0 : ℝ) ≤ (c1 : ℝ) := by exact_mod_cast hc1
    have hc2R : (0 : ℝ) ≤ (c2 : ℝ) := by exact_mod_cast hc2
    rw [if_pos hc1, Bool.and_eq_true, decide_eq_true_eq, decide_eq_true_eq,
      sqrt_cross_le v2 v1 hc1R hc2R h2 h1]
    constructor
    · rintro ⟨-, h⟩; exact_mod_cast h
    · intro h; exact ⟨hc2, by exact_mod_cast h⟩
  · have hc1R : (0 : ℝ) ≤ (c1 : ℝ) := by exact_mod_cast hc1
    have hc2R : (c2 : ℝ) < 0 := by exact_mod_cast not_le.mp hc2
    rw [if_pos hc1, Bool.and_eq_true, decide_eq_true_eq, decide_eq_true_eq]
    constructor
    · rintro ⟨h, -⟩; exact absurd h hc2
    · intro h
      exfalso
      have hn : (c2 : ℝ) * Real.sqrt (v1 : ℝ) < 0 := mul_neg_of_neg_of_pos hc2R s1
      have hp : (0 : ℝ) ≤ (c1 : ℝ) * Real.sqrt (v2 : ℝ) := mul_nonneg hc1R s2.le
      linarith
  · have hc1R : (c1 : ℝ) < 0 := by exact_mod_cast not_le.mp hc1
    have hc2R : (0 : ℝ) ≤ (c2 : ℝ) := by exact_mod_cast hc2
    rw [if_neg hc1, Bool.or_eq_true, decide_eq_true_eq, decide_eq_true_eq]
    constructor
    · intro _
      have hn : (c1 : ℝ) * Real.sqrt (v2 : ℝ) < 0 := mul_neg_of_neg_of_pos hc1R s2
      have hp : (0 : ℝ) ≤ (c2 : ℝ) * Real.sqrt (v1 : ℝ) := mul_nonneg hc2R s1.le
      linarith
    · intro _; exact Or.inl hc2
  · have hc1R : (c1 : ℝ) < 0 := by exact_mod_cast not_le.mp hc1
    have hc2R : (c2 : ℝ) < 0 := by exact_mod_cast not_le.mp hc2
    rw [if_neg hc1, Bool.or_eq_true, decide_eq_true_eq, decide_eq_true_eq]
    have key : (c1 : ℝ) * Real.sqrt (v2 : ℝ) ≤ (c2 : ℝ) * Real.sqrt (v1 : ℝ) ↔
        (-(c2 : ℝ)) * Real.sqrt (v1 : ℝ) ≤ (-(c1 : ℝ)) * Real.sqrt (v2 : ℝ) := by
      constructor <;> intro h <;> linarith
    rw [key, sqrt_cross_le v1 v2 (by linarith) (by linarith) h1 h2, neg_sq, neg_sq]
    constructor
    · rintro (h | h)
      · exact absurd h hc2
      · exact_mod_cast h
    · intro h; exact Or.inr (by exact_mod_cast h)

theorem corrVal_norm (r : ℚ × ℚ) : corrVal (corrNorm r) = corrVal r := by
  unfold corrNorm
  by_cases h : r.2 ≤ 0
  · rw [if_pos h]
    unfold corrVal
    have h2 : ((r.2 : ℚ) : ℝ) ≤ 0 := by exact_mod_cast h
    rw [Real.sqrt_eq_zero_of_nonpos h2, div_zero]
    norm_num
  · rw [if_neg h]

theorem corrNorm_pos (r : ℚ × ℚ) : 0 < (corrNorm r).2 := by
  unfold corrNorm
  by_cases h : r.2 ≤ 0
  · rw [if_pos h]; norm_num
  · rw [if_neg h]; exact lt_of_not_ge h

/-- `corrLeB` decides the order of the real coefficient values. -/
theorem corrLeB_iff (p q : ℚ × ℚ) : corrLeB p q = true ↔ corrVal p ≤ corrVal q := by
  rw [← corrVal_norm p, ← corrVal_norm q]
  exact corrLe_core (corrNorm_pos p) (corrNorm_pos q)

/-- Sort key of `.sort_values(by=selected_coin, ascending=False)`: entries in
descending order of their real coefficient value. -/
def corrDesc (a b : String × ℚ × ℚ) : Prop := corrLeB b.2 a.2 = true

instance : DecidableRel corrDesc := fun a b =>
  inferInstanceAs (Decidable (corrLeB b.2 a.2 = true))

instance : IsTotal (String × ℚ × ℚ) corrDesc :=
  ⟨fun a b => by
    rcases le_total (corrVal b.2) (corrVal a.2) with h | h
    · exact Or.inl ((corrLeB_iff _ _).mpr h)
    · exact Or.inr ((corrLeB_iff _ _).mpr h)⟩

instance : IsTrans (String × ℚ × ℚ) corrDesc :=
  ⟨fun a b c h1 h2 => (corrLeB_iff _ _).mpr
    (le_trans ((corrLeB_iff _ _).mp h2) ((corrLeB_iff _ _).mp h1))⟩

/-- Outcome of the correlation section (lines 116-132): either the selected
coin's sorted correlation vector (the `if` branch ending in a bar chart) or
the `st.warning` branch (no correlation data; no exception raised). -/
inductive CorrOutcome where
  | vec (entries : List (String × ℚ × ℚ))
  | noData
deriving DecidableEq

/-- Line 117 before sorting: `corr_matrix[[selected_coin]].dropna()` — one
entry per pivot column whose Pearson coefficient against `coin` is not NaN. -/
def corrEntries (df : List Row) (coin : String) (dropNA : Bool) : List (String × ℚ × ℚ) :=
  (pivotCols df).filterMap (fun c =>
    (corrPair (colVec df dropNA c) (colVec df dropNA coin)).map (fun v => (c, v)))

/-- Lines 116-132: the correlation section.  `selected_coin in
corr_matrix.columns` is column membership of the pivot table (`.corr()`
keeps the pivot's columns); the else branch only warns. -/
def selectedCorr (df : List Row) (coin : String) (dropNA : Bool) : CorrOutcome :=
  if coin ∈ pivotCols df then
    CorrOutcome.vec (List.insertionSort corrDesc (corrEntries df coin dropNA))
  else CorrOutcome.noData

/-- Dataset with two observations of coin `A` and none of `Z`. -/
def exDfNoZ : List Row :=
  [⟨0, "A", 1, 1, some 1⟩, ⟨1, "A", 2, 2, some 2⟩]

/-- C4 counterexample: for a coin absent from the return matrix the code
does not raise any error — the correlation section completes normally in
the warning branch, producing no correlation vector. -/
theorem corr_unknown_coin_counterexample :
    selectedCorr exDfNoZ "Z" true = CorrOutcome.noData ∧
    ∀ l, selectedCorr exDfNoZ "Z" true ≠ CorrOutcome.vec l := by
  constructor
  · decide
  · intro l h
    rw [show selectedCorr exDfNoZ "Z" true = CorrOutcome.noData by decide] at h
    cases h

/-- C4 amended: requesting the correlation vector for a coin that is not a
column of the return matrix yields the warning outcome (`noData`), not an
exception and not a vector. -/
theorem corr_unknown_coin_no_vector (df : List Row) (coin : String) (dropNA : Bool)
    (h : coin ∉ pivotCols df) : selectedCorr df coin dropNA = CorrOutcome.noData := by
  unfold selectedCorr
  rw [if_neg h]

theorem corr_unknown_coin_no_vector_witness :
    ("Z" ∉ pivotCols exDfNoZ) ∧ selectedCorr exDfNoZ "Z" true = CorrOutcome.noData :=
  ⟨by decide, corr_unknown_coin_no_vector exDfNoZ "Z" true (by decide)⟩

theorem varSumFst_nonneg (ps : List (ℚ × ℚ)) : 0 ≤ varSumFst ps :=
  Finset.sum_nonneg fun _ _ => sq_nonneg _

theorem varSumSnd_nonneg (ps : List (ℚ × ℚ)) : 0 ≤ varSumSnd ps :=
  Finset.sum_nonneg fun _ _ => sq_nonneg _

/-- Cauchy-Schwarz: the squared centered cross sum is bounded by the product
of the centered square sums. -/
theorem covSum_sq_le (ps : List (ℚ × ℚ)) :
    covSum ps ^ 2 ≤ varSumFst ps * varSumSnd ps := by
  unfold covSum varSumFst varSumSnd
  exact Finset.sum_mul_sq_le_sq_mul_sq _ (fDev ps) (gDev ps)

theorem corrPair_eq_some {xs ys : List (Option ℚ)} {v : ℚ × ℚ}
    (h : corrPair xs ys = some v) :
    v = (covSum (overlap xs ys),
         varSumFst (overlap xs ys) * varSumSnd (overlap xs ys)) ∧
    varSumFst (overlap xs ys) * varSumSnd (overlap xs ys) ≠ 0 := by
  unfold corrPair at h
  split_ifs at h with h0
  exact ⟨(Option.some_injective _ h).symm, h0⟩

theorem mem_zip_self {α : Type} {xs : List α} : ∀ p ∈ xs.zip xs, p.1 = p.2 := by
  induction xs with
  | nil => simp
  | cons x t ih =>
    intro p hp
    rw [List.zip_cons_cons] at hp
    rcases List.mem_cons.mp hp with rfl | hp
    · rfl
    · exact ih p hp

theorem overlap_self_diag (xs : List (Option ℚ)) : ∀ p ∈ overlap xs xs, p.1 = p.2 := by
  intro p hp
  unfold overlap at hp
  rw [List.mem_filterMap] at hp
  obtain ⟨⟨a, b⟩, hab, hf⟩ := hp
  have hd : a = b := mem_zip_self _ hab
  subst hd
  cases a with
  | none => cases hf
  | some x =>
    have : ((x, x) : ℚ × ℚ) = p := Option.some_injective _ hf
    rw [← this]

theorem diag_sums {ps : List (ℚ × ℚ)} (h : ∀ p ∈ ps, p.1 = p.2) :
    covSum ps = varSumFst ps ∧ varSumSnd ps = varSumFst ps := by
  have hmap : ps.map Prod.fst = ps.map Prod.snd := List.map_congr_left h
  have hget : ∀ i : Nat,
      (ps.getD i ((0 : ℚ), (0 : ℚ))).1 = (ps.getD i ((0 : ℚ), (0 : ℚ))).2 := by
    intro i
    by_cases hi : i < ps.length
    · rw [List.getD_eq_getElem ps _ hi]
      exact h _ (List.getElem_mem hi)
    · rw [List.getD_eq_default ps _ (le_of_not_lt hi)]
  have hfg : ∀ i, fDev ps i = gDev ps i := by
    intro i
    unfold fDev gDev
    rw [hget i, hmap]
  constructor
  · unfold covSum varSumFst
    refine Finset.sum_congr rfl fun i _ => ?_
    rw [hfg i]; ring
  · unfold varSumSnd varSumFst
    refine Finset.sum_congr rfl fun i _ => ?_
    rw [hfg i]

theorem corrVal_self_pair {s : ℚ} (hs : 0 < s) : corrVal (s, s * s) = 1 := by
  unfold corrVal
  have hsR : (0 : ℝ) < (s : ℝ) := by exact_mod_cast hs
  have hcast : (((s * s : ℚ)) : ℝ) = (s : ℝ) * (s : ℝ) := by push_cast; ring
  rw [show ((s, s * s) : ℚ × ℚ).2 = s * s from rfl, hcast,
    Real.sqrt_mul_self hsR.le]
  exact div_self hsR.ne'

theorem corrVal_bounds {v : ℚ × ℚ} (hcs : v.1 ^ 2 ≤ v.2) (hv : 0 < v.2) :
    -1 ≤ corrVal v ∧ corrVal v ≤ 1 := by
  have hvR : (0 : ℝ) < (v.2 : ℝ) := by exact_mod_cast hv
  have s : (0 : ℝ) < Real.sqrt (v.2 : ℝ) := Real.sqrt_pos.mpr hvR
  have habs : |(v.1 : ℝ)| ≤ Real.sqrt (v.2 : ℝ) := by
    rw [← Real.sqrt_sq_eq_abs]
    exact Real.sqrt_le_sqrt (by exact_mod_cast hcs)
  have habs2 : |corrVal v| ≤ 1 := by
    unfold corrVal
    rw [abs_div, abs_of_nonneg (Real.sqrt_nonneg _)]
    exact (div_le_one s).mpr habs
  exact abs_le.mp habs2

/-- C7: whenever the correlation section produces a vector, the selected
coin appears in it only with coefficient exactly 1, every coefficient lies
in [-1, 1], and the entries are in descending order of coefficient. -/
theorem corr_vector_props (df : List Row) (coin : String) (dropNA : Bool)
    (l : List (String × ℚ × ℚ)) (h : selectedCorr df coin dropNA = CorrOutcome.vec l) :
    (∀ p ∈ l, p.1 = coin → corrVal p.2 = 1) ∧
    (∀ p ∈ l, -1 ≤ corrVal p.2 ∧ corrVal p.2 ≤ 1) ∧
    l.Pairwise (fun a b => corrVal b.2 ≤ corrVal a.2) := by
  unfold selectedCorr at h
  split_ifs at h with hin
  · injection h with h
    subst h
    refine ⟨?_, ?_, ?_⟩
    · intro p hp hpc
      rw [List.mem_insertionSort] at hp
      unfold corrEntries at hp
      rw [List.mem_filterMap] at hp
      obtain ⟨c, hc, hf⟩ := hp
      rw [Option.map_eq_some'] at hf
      obtain ⟨v, hv, hpv⟩ := hf
      subst hpv
      have hcc : c = coin := hpc
      subst hcc
      obtain ⟨hveq, hvne⟩ := corrPair_eq_some hv
      obtain ⟨hcov, hsnd⟩ := diag_sums (overlap_self_diag (colVec df dropNA c))
      have hs0 : varSumFst (overlap (colVec df dropNA c) (colVec df dropNA c)) ≠ 0 := by
        intro h0
        exact hvne (by rw [h0, zero_mul])
      have hspos : 0 < varSumFst (overlap (colVec df dropNA c) (colVec df dropNA c)) :=
        lt_of_le_of_ne (varSumFst_nonneg _) (Ne.symm hs0)
      show corrVal v = 1
      rw [hveq, hcov, hsnd]
      exact corrVal_self_pair hspos
    · intro p hp
      rw [List.mem_insertionSort] at hp
      unfold corrEntries at hp
      rw [List.mem_filterMap] at hp
      obtain ⟨c, hc, hf⟩ := hp
      rw [Option.map_eq_some'] at hf
      obtain ⟨v, hv, hpv⟩ := hf
      subst hpv
      obtain ⟨hveq, hvne⟩ := corrPair_eq_some hv
      have hpos : 0 < varSumFst (overlap (colVec df dropNA c) (colVec df dropNA coin)) *
          varSumSnd (overlap (colVec df dropNA c) (colVec df dropNA coin)) :=
        lt_of_le_of_ne (mul_nonneg (varSumFst_nonneg _) (varSumSnd_nonneg _)) (Ne.symm hvne)
      show -1 ≤ corrVal v ∧ corrVal v ≤ 1
      rw [hveq]
      exact corrVal_bounds (covSum_sq_le _) hpos
    · exact (List.sorted_insertionSort corrDesc _).imp
        (fun hab => (corrLeB_iff _ _).mp hab)

/-- Dataset with two fully correlated coins `A` and `B` over three dates. -/
def exDfAB : List Row :=
  [⟨0, "A", 1, 1, some 1⟩, ⟨1, "A", 2, 2, some 2⟩, ⟨2, "A", 3, 3, some 3⟩,
   ⟨0, "B", 1, 1, some 2⟩, ⟨1, "B", 2, 2, some 4⟩, ⟨2, "B", 3, 3, some 6⟩]

theorem corr_vector_props_witness :
    (∀ p ∈ List.insertionSort corrDesc (corrEntries exDfAB "A" true),
        p.1 = "A" → corrVal p.2 = 1) ∧
    (∀ p ∈ List.insertionSort corrDesc (corrEntries exDfAB "A" true),
        -1 ≤ corrVal p.2 ∧ corrVal p.2 ≤ 1) ∧
    (List.insertionSort corrDesc (corrEntries exDfAB "A" true)).Pairwise
      (fun a b => corrVal b.2 ≤ corrVal a.2) :=
  corr_vector_props exDfAB "A" true _ (by unfold selectedCorr; rw [if_pos (by decide)])

/-! ## Forecast engine (lines 62-66)

Prophet is an external library; its code is not part of this repository.
The spec specifies it as a black box: given `(ds, y)+` and a horizon in
days it returns `(ds, yhat, yhat_lower, yhat_upper)+` covering the input
range plus the horizon, with `yhat_lower ≤ yhat ≤ yhat_upper` on every
produced row.  The date arithmetic of `make_future_dataframe` and the
row-per-date shape of `predict` are modelled below; the numeric fitting is
kept abstract as a `ProphetModel`. -/

/-- Modelled from the spec: Prophet's `make_future_dataframe(periods=horizon)`
(line 65 with `include_history` default true) — the historical dates
followed by `horizon` consecutive calendar days after the last historical
date. -/
def futureDates (histDates : List Nat) (horizon : Nat) : List Nat :=
  histDates ++ (List.range horizon).map (fun i => histDates.getLastD 0 + (i + 1))

/-- Modelled from the spec: the fitted forecasting model (line 63-64) is a
black box assigning each date a point estimate between its interval
bounds (spec §4.3: `yhat_lower ≤ yhat ≤ yhat_upper` must hold for every
produced row; fitting is stochastic, so the functions are arbitrary). -/
structure ProphetModel where
  yhat : Nat → ℚ
  yhatLower : Nat → ℚ
  yhatUpper : Nat → ℚ
  lower_le : ∀ d, yhatLower d ≤ yhat d
  le_upper : ∀ d, yhat d ≤ yhatUpper d

/-- One row of the `forecast` dataframe (line 66). -/
structure ForecastRow where
  ds : Nat
  yhat : ℚ
  yhatLower : ℚ
  yhatUpper : ℚ
deriving DecidableEq

/-- Modelled from the spec: `forecast = model.predict(future)` (line 66) —
one output row per future date. -/
def predict (m : ProphetModel) (dates : List Nat) : List ForecastRow :=
  dates.map (fun d => ⟨d, m.yhat d, m.yhatLower d, m.yhatUpper d⟩)

/-- Lines 62-66: the 30-day forecast of the selected coin's series. -/
def forecastOf (m : ProphetModel) (df : List Row) (c : String) : List ForecastRow :=
  predict m (futureDates ((coinDf df c).map (fun r => r.date)) 30)

/-- C3: every produced forecast row has `yhat_lower ≤ yhat ≤ yhat_upper`. -/
theorem forecast_interval_order (m : ProphetModel) (df : List Row) (c : String) :
    ∀ fr ∈ forecastOf m df c, fr.yhatLower ≤ fr.yhat ∧ fr.yhat ≤ fr.yhatUpper := by
  intro fr hfr
  unfold forecastOf predict at hfr
  rw [List.mem_map] at hfr
  obtain ⟨d, _, rfl⟩ := hfr
  exact ⟨m.lower_le d, m.le_upper d⟩

/-- A constant model (every estimate 0), used to instantiate witnesses. -/
def constModel : ProphetModel :=
  ⟨fun _ => 0, fun _ => 0, fun _ => 0, fun _ => le_refl 0, fun _ => le_refl 0⟩

theorem forecast_interval_order_witness :
    (⟨0, 0, 0, 0⟩ : ForecastRow) ∈ forecastOf constModel exDfNoZ "A" ∧
    ((⟨0, 0, 0, 0⟩ : ForecastRow).yhatLower ≤ (⟨0, 0, 0, 0⟩ : ForecastRow).yhat ∧
     (⟨0, 0, 0, 0⟩ : ForecastRow).yhat ≤ (⟨0, 0, 0, 0⟩ : ForecastRow).yhatUpper) :=
  have hmem : (⟨0, 0, 0, 0⟩ : ForecastRow) ∈ forecastOf constModel exDfNoZ "A" :=
    List.mem_map.mpr ⟨0, by decide, rfl⟩
  ⟨hmem, forecast_interval_order constModel exDfNoZ "A" _ hmem⟩

theorem chain_succ_range_map (k n : Nat) :
    List.Chain' (fun a b : Nat => b = a + 1) ((List.range n).map (fun i => k + (i + 1))) := by
  rw [List.chain'_iff_get]
  intro i h
  simp only [List.length_map, List.length_range] at h
  simp only [List.get_eq_getElem, List.getElem_map, List.getElem_range]
  omega

/-- Dataset whose single coin `A` has two observations with a date gap. -/
def exDfGap : List Row := [⟨0, "A", 1, 1, none⟩, ⟨2, "A", 2, 2, some 1⟩]

/-- C2 counterexample: a series of two observations whose dates are not
consecutive yields forecast dates with a gap, refuting the unconditional
"no gaps" part of the claim. -/
theorem forecast_gap_counterexample :
    2 ≤ (coinDf exDfGap "A").length ∧
    ¬ List.Chain' (fun a b : Nat => b = a + 1)
        ((forecastOf constModel exDfGap "A").map ForecastRow.ds) := by
  constructor
  · decide
  · intro h
    have he : (forecastOf constModel exDfGap "A").map ForecastRow.ds
        = 0 :: 2 :: (List.range 30).map (fun i => 2 + (i + 1)) := by decide
    rw [he, List.chain'_cons] at h
    exact absurd h.1 (by decide)

/-- C2 (amended): for a coin whose dataset dates are distinct, the forecast
has one row per historical date plus exactly 30 rows for the consecutive
calendar days after the last historical date; its dates strictly increase,
and they are gap-free whenever the historical dates themselves are
consecutive.  (With a gap in the history the historical part of the output
reproduces that gap; see `forecast_gap_counterexample`.) -/
theorem forecast_dates_amended (m : ProphetModel) (df : List Row) (c : String)
    (hnd : ((df.filter (fun r => decide (r.coin = c))).map (fun r => r.date)).Nodup) :
    (forecastOf m df c).length = (coinDf df c).length + 30 ∧
    (forecastOf m df c).map ForecastRow.ds
      = futureDates ((coinDf df c).map (fun r => r.date)) 30 ∧
    List.Chain' (fun a b : Nat => a < b) ((forecastOf m df c).map ForecastRow.ds) ∧
    (List.Chain' (fun a b : Nat => b = a + 1) ((coinDf df c).map (fun r => r.date)) →
      List.Chain' (fun a b : Nat => b = a + 1) ((forecastOf m df c).map ForecastRow.ds)) := by
  have hmapds : (forecastOf m df c).map ForecastRow.ds
      = futureDates ((coinDf df c).map (fun r => r.date)) 30 := by
    unfold forecastOf predict
    rw [List.map_map]
    simp [Function.comp_def]
  have hlen : (forecastOf m df c).length = (coinDf df c).length + 30 := by
    unfold forecastOf predict futureDates
    simp
  refine ⟨hlen, hmapds, ?_, ?_⟩
  · rw [hmapds]
    unfold futureDates
    have hperm : ((coinDf df c).map (fun r => r.date)).Perm
        ((df.filter (fun r => decide (r.coin = c))).map (fun r => r.date)) :=
      (List.perm_insertionSort dateLe _).map _
    have hnodup : ((coinDf df c).map (fun r => r.date)).Nodup := hperm.nodup_iff.mpr hnd
    have hsorted : (coinDf df c).Pairwise dateLe := List.sorted_insertionSort dateLe _
    have hple : ((coinDf df c).map (fun r => r.date)).Pairwise (fun a b : Nat => a ≤ b) :=
      List.pairwise_map.mpr hsorted
    have hplt : ((coinDf df c).map (fun r => r.date)).Pairwise (fun a b : Nat => a < b) :=
      (hple.and hnodup).imp (fun h => lt_of_le_of_ne h.1 h.2)
    refine List.chain'_append.mpr ⟨hplt.chain', ?_, ?_⟩
    · exact (chain_succ_range_map _ 30).imp (fun h => by omega)
    · intro x hx y hy
      have hx' : ((coinDf df c).map (fun r => r.date)).getLastD 0 = x := by
        rw [List.getLastD_eq_getLast?, hx]
        rfl
      have hy' : y = ((coinDf df c).map (fun r => r.date)).getLastD 0 + (0 + 1) := by
        have hh : ((List.range 30).map
            (fun i => ((coinDf df c).map (fun r => r.date)).getLastD 0 + (i + 1))).head?
            = some (((coinDf df c).map (fun r => r.date)).getLastD 0 + (0 + 1)) := rfl
        rw [hh] at hy
        exact (Option.mem_some_iff.mp hy).symm
      omega
  · intro hgap
    rw [hmapds]
    unfold futureDates
    refine List.chain'_append.mpr ⟨hgap, chain_succ_range_map _ 30, ?_⟩
    intro x hx y hy
    have hx' : ((coinDf df c).map (fun r => r.date)).getLastD 0 = x := by
      rw [List.getLastD_eq_getLast?, hx]
      rfl
    have hy' : y = ((coinDf df c).map (fun r => r.date)).getLastD 0 + (0 + 1) := by
      have hh : ((List.range 30).map
          (fun i => ((coinDf df c).map (fun r => r.date)).getLastD 0 + (i + 1))).head?
          = some (((coinDf df c).map (fun r => r.date)).getLastD 0 + (0 + 1)) := rfl
      rw [hh] at hy
      exact (Option.mem_some_iff.mp hy).symm
    omega

theorem forecast_dates_amended_witness :
    (((exDfNoZ.filter (fun r => decide (r.coin = "A"))).map (fun r => r.date)).Nodup) ∧
    ((forecastOf constModel exDfNoZ "A").length = (coinDf exDfNoZ "A").length + 30 ∧
     (forecastOf constModel exDfNoZ "A").map ForecastRow.ds
       = futureDates ((coinDf exDfNoZ "A").map (fun r => r.date)) 30 ∧
     List.Chain' (fun a b : Nat => a < b) ((forecastOf constModel exDfNoZ "A").map ForecastRow.ds) ∧
     (List.Chain' (fun a b : Nat => b = a + 1) ((coinDf exDfNoZ "A").map (fun r => r.date)) →
       List.Chain' (fun a b : Nat => b = a + 1)
         ((forecastOf constModel exDfNoZ "A").map ForecastRow.ds))) :=
  ⟨by decide, forecast_dates_amended constModel exDfNoZ "A" (by decide)⟩

/-! ## Seasonal decomposer (lines 145-147)

STL is an external library (statsmodels); its code is not part of this
repository.  The spec specifies it as a black box: given a regularly
spaced numeric series and a period it returns `(trend, seasonal, residual)`
series aligned with the input, additive to the input within numeric
tolerance, requiring `length ≥ 2 * period`. -/

/-- Modelled from the spec: the decomposition's smoothing internals, kept
abstract — arbitrary functions from the series and a date to the trend and
seasonal values at that date. -/
structure StlSmoother where
  trendF : List (Nat × ℚ) → Nat → ℚ
  seasonalF : List (Nat × ℚ) → Nat → ℚ

/-- One aligned row of the decomposition result. -/
structure StlRow where
  date : Nat
  trend : ℚ
  seasonal : ℚ
  resid : ℚ
deriving DecidableEq

/-- Modelled from the spec: `STL(coin_df['Close'], period=30).fit()` (lines
146-147) — defined for series of length at least `2 * period`, one output
row per input date, the residual being the remainder
`close - trend - seasonal` of the additive decomposition. -/
def stlFit (s : StlSmoother) (series : List (Nat × ℚ)) (period : Nat) :
    Option (List StlRow) :=
  if series.length < 2 * period then none
  else some (series.map (fun p =>
    ⟨p.1, s.trendF series p.1, s.seasonalF series p.1,
      p.2 - s.trendF series p.1 - s.seasonalF series p.1⟩))

/-- Line 145-146: the date-indexed closing-price series handed to STL
(`coin_df.set_index('Date', inplace=True)` then `coin_df['Close']`). -/
def stlSeries (df : List Row) (c : String) : List (Nat × ℚ) :=
  (coinDf df c).map (fun r => (r.date, r.close))

theorem zip_self_map {α β : Type} (l : List α) (f : α → β) :
    l.zip (l.map f) = l.map (fun a => (a, f a)) := by
  induction l with
  | nil => rfl
  | cons a t ih => simp [ih]

/-- C8: an accepted decomposition is aligned 1:1 with the input dates and
satisfies the additive identity `|Close - (trend + seasonal + residual)| < ε`
at every date, for every positive tolerance (the remainder is exactly 0). -/
theorem stl_additive_identity (s : StlSmoother) (df : List Row) (c : String)
    (out : List StlRow) (h : stlFit s (stlSeries df c) 30 = some out) :
    out.map StlRow.date = (stlSeries df c).map Prod.fst ∧
    ∀ p ∈ (stlSeries df c).zip out,
      p.1.1 = p.2.date ∧
      ∀ ε : ℚ, 0 < ε → |p.1.2 - (p.2.trend + p.2.seasonal + p.2.resid)| < ε := by
  unfold stlFit at h
  split_ifs at h with hlen
  injection h with h
  subst h
  constructor
  · rw [List.map_map]
    exact List.map_congr_left (fun p _ => rfl)
  · intro p hp
    rw [zip_self_map, List.mem_map] at hp
    obtain ⟨q, _, rfl⟩ := hp
    refine ⟨rfl, fun ε hε => ?_⟩
    have hz : q.2 - (s.trendF (stlSeries df c) q.1 + s.seasonalF (stlSeries df c) q.1 +
        (q.2 - s.trendF (stlSeries df c) q.1 - s.seasonalF (stlSeries df c) q.1)) = 0 := by
      ring
    show |q.2 - (s.trendF (stlSeries df c) q.1 + s.seasonalF (stlSeries df c) q.1 +
        (q.2 - s.trendF (stlSeries df c) q.1 - s.seasonalF (stlSeries df c) q.1))| < ε
    rw [hz, abs_zero]
    exact hε

/-- A smoother whose trend and seasonal components are identically 0. -/
def zeroSmoother : StlSmoother := ⟨fun _ _ => 0, fun _ _ => 0⟩

/-- 60 daily observations of a single coin `A`. -/
def exDf60 : List Row := (List.range 60).map (fun i => ⟨i, "A", 1, 1, none⟩)

theorem stl_additive_identity_witness :
    stlFit zeroSmoother (stlSeries exDf60 "A") 30 = some ((stlSeries exDf60 "A").map (fun p =>
      ⟨p.1, zeroSmoother.trendF (stlSeries exDf60 "A") p.1,
        zeroSmoother.seasonalF (stlSeries exDf60 "A") p.1,
        p.2 - zeroSmoother.trendF (stlSeries exDf60 "A") p.1 -
          zeroSmoother.seasonalF (stlSeries exDf60 "A") p.1⟩)) ∧
    (((stlSeries exDf60 "A").map (fun p =>
        (⟨p.1, zeroSmoother.trendF (stlSeries exDf60 "A") p.1,
          zeroSmoother.seasonalF (stlSeries exDf60 "A") p.1,
          p.2 - zeroSmoother.trendF (stlSeries exDf60 "A") p.1 -
            zeroSmoother.seasonalF (stlSeries exDf60 "A") p.1⟩ : StlRow))).map StlRow.date
      = (stlSeries exDf60 "A").map Prod.fst ∧
     ∀ p ∈ (stlSeries exDf60 "A").zip ((stlSeries exDf60 "A").map (fun p =>
        (⟨p.1, zeroSmoother.trendF (stlSeries exDf60 "A") p.1,
          zeroSmoother.seasonalF (stlSeries exDf60 "A") p.1,
          p.2 - zeroSmoother.trendF (stlSeries exDf60 "A") p.1 -
            zeroSmoother.seasonalF (stlSeries exDf60 "A") p.1⟩ : StlRow))),
       p.1.1 = p.2.date ∧
       ∀ ε : ℚ, 0 < ε → |p.1.2 - (p.2.trend + p.2.seasonal + p.2.resid)| < ε) :=
  have hfit : stlFit zeroSmoother (stlSeries exDf60 "A") 30 = some _ := by
    unfold stlFit
    rw [if_neg (by decide)]
  ⟨hfit, stl_additive_identity zeroSmoother exDf60 "A" _ hfit⟩

/-! ## The script end to end (lines 14-147)

Each dashboard computation is modelled as a state transition mirroring the
script's assignments.  Every pandas call used on `df` returns a new frame
(`df[...]`, `sort_values`, `groupby(...).std()`, `pivot_table`, `corr`);
the only in-place operation, `coin_df.set_index('Date', inplace=True)` on
line 145, rebinds the already-copied `coin_df` (line 21 ends in `.copy()`),
which `step_setIndex` models by replacing the `coinDf` binding with the
date-indexed close series used by STL. -/

structure DashState where
  df : List Row
  coinDf : List Row
  forecast : List ForecastRow
  volatility : List VolEntry
  recommended : Option String
  corr : CorrOutcome
  stlInput : List (Nat × ℚ)
  stl : Option (List StlRow)

/-- Line 14: the loaded dataset, before any derived computation. -/
def initState (df0 : List Row) : DashState :=
  ⟨df0, [], [], [], none, CorrOutcome.noData, [], none⟩

/-- Line 21: `coin_df = df[df['Coin'] == selected_coin].sort_values('Date').copy()`. -/
def step_select (c : String) (st : DashState) : DashState :=
  { st with coinDf := coinDf st.df c }

/-- Lines 62-66: fit and predict (the model is the stochastic black box). -/
def step_forecast (m : ProphetModel) (st : DashState) : DashState :=
  { st with forecast := predict m (futureDates (st.coinDf.map (fun r => r.date)) 30) }

/-- Lines 79-87: volatility table and the rank-1 "buyer recommendation"
(`volatility_df.sort_values('Volatility').head(1)['Coin'].values[0]`). -/
def step_volatility (st : DashState) : DashState :=
  { st with
    volatility := volatilityDf st.df
    recommended := ((List.insertionSort volAsc (volatilityDf st.df)).head?).map VolEntry.coin }

/-- Lines 105-132: pivot, correlation matrix, selected column. -/
def step_corr (c : String) (dropNA : Bool) (st : DashState) : DashState :=
  { st with corr := selectedCorr st.df c dropNA }

/-- Line 145: `coin_df.set_index('Date', inplace=True)` followed by the
`coin_df['Close']` projection of line 146. -/
def step_setIndex (st : DashState) : DashState :=
  { st with stlInput := st.coinDf.map (fun r => (r.date, r.close)) }

/-- Lines 146-147: `STL(coin_df['Close'], period=30)` and `stl.fit()`. -/
def step_stl (s : StlSmoother) (st : DashState) : DashState :=
  { st with stl := stlFit s st.stlInput 30 }

/-- The whole script for one interaction: dataset, selected coin, NA toggle,
and the two library black boxes. -/
def runScript (df0 : List Row) (c : String) (dropNA : Bool)
    (m : ProphetModel) (s : StlSmoother) : DashState :=
  step_stl s (step_setIndex (step_corr c dropNA
    (step_volatility (step_forecast m (step_select c (initState df0))))))

/-- C9: after the full pass of derived computations (selection, forecast,
volatility ranking, correlation, decomposition) the loaded dataset is
unchanged — no step writes the `df` binding. -/
theorem script_preserves_dataset (df0 : List Row) (c : String) (dropNA : Bool)
    (m : ProphetModel) (s : StlSmoother) :
    (runScript df0 c dropNA m s).df = df0 := rfl

/-- C10: for a fixed dataset, selected coin and NA toggle, the volatility
table (with its recommendation) and the correlation vector are
deterministic: they are equal across any two runs, in particular runs whose
stochastic forecasting model and decomposition smoother differ. -/
theorem vol_corr_deterministic (df0 : List Row) (c : String) (dropNA : Bool)
    (m1 m2 : ProphetModel) (s1 s2 : StlSmoother) :
    (runScript df0 c dropNA m1 s1).volatility = (runScript df0 c dropNA m2 s2).volatility ∧
    (runScript df0 c dropNA m1 s1).recommended = (runScript df0 c dropNA m2 s2).recommended ∧
    (runScript df0 c dropNA m1 s1).corr = (runScript df0 c dropNA m2 s2).corr :=
  ⟨rfl, rfl, rfl⟩

/-- Dataset in which coin `C` has exactly one observation. -/
def exDfSingleC : List Row :=
  [⟨0, "C", 1, 1, none⟩, ⟨0, "A", 1, 1, some 1⟩, ⟨1, "A", 2, 2, some 1⟩]

theorem volatility_single_observation_witness :
    (exDfSingleC.filter (fun r => decide (r.coin = "C"))).length = 1 ∧
    ("C" ∈ coinsOf exDfSingleC ∧
      ∀ e ∈ volatilityDf exDfSingleC, e.coin = "C" → e.vol = none) :=
  ⟨by decide, volatility_single_observation exDfSingleC "C" (by decide)⟩
